import Mathlib

/-!
Shallow embedding of the pyxsim repository (`pyxsim/event_list.py` and
`pyxsim/source_models.py`).  Machine floating-point values are modelled by
`ℚ`; numpy pseudo-random draws are modelled by explicit oracle functions
passed as arguments (`pois i lam` is the Poisson draw for cell `i`,
`unif i j` the `j`-th uniform draw for cell `i`, and so on).  Each
definition mirrors one Python function or method of the source.
-/

namespace Pyxsim

/-- Insert `x` into `l` just before the first element `y` with `le x y`. -/
def insertBy (le : α → α → Bool) (x : α) : List α → List α
  | [] => [x]
  | y :: ys => if le x y then x :: y :: ys else y :: insertBy le x ys

/-- Insertion sort with comparison `le`; models numpy in-place sorting. -/
def sortBy (le : α → α → Bool) : List α → List α
  | [] => []
  | x :: xs => insertBy le x (sortBy le xs)

/-- Sort a list of rationals ascending (models `ndarray.sort()`). -/
def sortQ (l : List ℚ) : List ℚ := sortBy (fun a b => decide (a ≤ b)) l

/-- Map with an explicit running index, models vectorized per-cell draws. -/
def mapIdxQ (f : ℕ → α → β) : ℕ → List α → List β
  | _, [] => []
  | i, x :: xs => f i x :: mapIdxQ f (i + 1) xs

/-- Concatenate the images of `f`; models repeated `numpy` concatenation. -/
def flatQ (f : α → List β) : List α → List β
  | [] => []
  | x :: xs => f x ++ flatQ f xs

/-- Boolean-mask indexing `v[mask]` of numpy. -/
def maskFilter : List Bool → List α → List α
  | true :: ms, x :: xs => x :: maskFilter ms xs
  | false :: ms, _ :: xs => maskFilter ms xs
  | _, _ => []

/-- Running partial sums starting from accumulator `s`. -/
def cumsumFrom (s : ℚ) : List ℚ → List ℚ
  | [] => []
  | x :: xs => (s + x) :: cumsumFrom (s + x) xs

/-- Models `np.cumsum`. -/
def cumsum (l : List ℚ) : List ℚ := cumsumFrom 0 l

/-- Models `np.insert(np.cumsum(l), 0, 0.0)`. -/
def cumsum0 (l : List ℚ) : List ℚ := 0 :: cumsum l

/-- Elementwise sum of two arrays (`a + b` on equal-length ndarrays). -/
def addLists (a b : List ℚ) : List ℚ := List.zipWith (· + ·) a b

/-- Scalar times array (`c * a` on an ndarray). -/
def scaleList (c : ℚ) (l : List ℚ) : List ℚ := l.map (fun x => c * x)

/-- Last element of an array, default `0` (`a[-1]` of numpy). -/
def lastD : List ℚ → ℚ
  | [] => 0
  | [x] => x
  | _ :: x :: xs => lastD (x :: xs)

/-- Linear-interpolation scan: `x1, f1` is the previous grid point. -/
def interpGo (x : ℚ) : ℚ → ℚ → List ℚ → List ℚ → ℚ
  | _, f1, [], _ => f1
  | _, f1, _, [] => f1
  | x1, f1, x2 :: xs, f2 :: fs =>
    if x ≤ x2 then f1 + (f2 - f1) * (x - x1) / (x2 - x1)
    else interpGo x x2 f2 xs fs

/-- Models `np.interp(x, xp, fp)` for nondecreasing `xp`. -/
def interp1 (x : ℚ) (xp fp : List ℚ) : ℚ :=
  match xp, fp with
  | [], _ => 0
  | _, [] => 0
  | x1 :: xs, f1 :: fs => if x ≤ x1 then f1 else interpGo x x1 f1 xs fs

/-- Python dict lookup on an insertion-ordered association list. -/
def lookupEv (k : String) : List (String × List ℚ) → Option (List ℚ)
  | [] => none
  | (k2, v) :: rest => if k = k2 then some v else lookupEv k rest

/-- The `parameters` dictionary of an `EventList` (canonical units:
seconds, cm², degrees, Mpc). -/
structure Params where
  exposureTime : ℚ
  area : ℚ
  redshift : Option ℚ
  dA : Option ℚ
  skyCenter : ℚ × ℚ
  pixCenter : ℚ × ℚ
  dtheta : ℚ
deriving DecidableEq

/-- `EventList`: the `events` dict (insertion-ordered, keys such as
`"xpix"`, `"ypix"`, `"eobs"`, lazily also `"xsky"`/`"ysky"`) plus
`parameters`. -/
structure EventList where
  events : List (String × List ℚ)
  params : Params
deriving DecidableEq

/-- Value of `events[k]`, empty when the key is absent. -/
def getEv (c : EventList) (k : String) : List ℚ :=
  (lookupEv k c.events).getD []

/-- `num_events = events["xpix"].shape[0]` set by `EventList.__init__`. -/
def numEvents (c : EventList) : ℕ := (getEv c "xpix").length

/-- Direct construction with the three standard per-photon arrays. -/
def mkStd (xs ys es : List ℚ) (p : Params) : EventList :=
  ⟨[("xpix", xs), ("ypix", ys), ("eobs", es)], p⟩

/-- `EventList.__add__`: zip the two `events` dicts item by item and
concatenate the value arrays; the parameters of the left operand are
kept. -/
def addEL (a b : EventList) : EventList :=
  ⟨(a.events.zip b.events).map (fun p => (p.1.1, p.1.2 ++ p.2.2)), a.params⟩

/-- The boolean inclusion mask `f.inside_x_y(self["xpix"], self["ypix"])`
computed by `EventList.filter_events` for a region predicate. -/
def matchMask (inside : ℚ → ℚ → Bool) (c : EventList) : List Bool :=
  List.zipWith (fun x y => inside x y) (getEv c "xpix") (getEv c "ypix")

/-- `EventList.filter_events`: raise when no event is inside the region,
otherwise keep the mask-selected subset of every per-key array. -/
def filter_events (inside : ℚ → ℚ → Bool) (c : EventList) :
    Except String EventList :=
  let mask := matchMask inside c
  if mask.count true = 0 then
    Except.error "No events are inside this region!"
  else
    Except.ok ⟨c.events.map (fun p => (p.1, maskFilter mask p.2)), c.params⟩

/-- Photon count drawn by `EventList._add_events`:
`np.uint64(exp_time * area * flux)` with `flux = spectrum.sum()`. -/
def numPhotonsOf (c : EventList) (spectrum : List ℚ) : ℕ :=
  (⌊c.params.exposureTime * c.params.area * spectrum.sum⌋).toNat

/-- `EventList._add_events`: draw `numPhotonsOf` sorted uniforms, invert
the normalized cumulative spectrum against the energy-bin edges, and
optionally apply an absorption mask. -/
def addEventsDraw (prng : ℕ → ℚ) (absorb : Option (List ℚ → List Bool))
    (c : EventList) (ebins spectrum : List ℚ) : List ℚ :=
  let np := numPhotonsOf c spectrum
  let cumspec := 0 :: cumsum spectrum
  let cnorm := cumspec.map (fun t => t / lastD cumspec)
  let randvec := sortQ ((List.range np).map prng)
  let e := randvec.map (fun u => interp1 u cnorm ebins)
  match absorb with
  | none => e
  | some f => maskFilter (f e) e

/-- `EventList.add_background`: new energies from `_add_events`, pixel
positions drawn uniformly in `[0.5, 2*pix_center - 0.5)` per axis, new
events prepended to the old arrays. -/
def add_background (prng : ℕ → ℚ) (uniform : ℚ → ℚ → ℕ → ℚ)
    (absorb : Option (List ℚ → List Bool)) (c : EventList)
    (ebins spectrum : List ℚ) : EventList :=
  let eobs := addEventsDraw prng absorb c ebins spectrum
  let ne := eobs.length
  let x := (List.range ne).map (uniform (1/2) (2 * c.params.pixCenter.1 - 1/2))
  let y := (List.range ne).map (uniform (1/2) (2 * c.params.pixCenter.2 - 1/2))
  ⟨[("xpix", x ++ getEv c "xpix"),
    ("ypix", y ++ getEv c "ypix"),
    ("eobs", eobs ++ getEv c "eobs")], c.params⟩

/-- One loop iteration of `EventList.add_point_sources` for source `s`
at position-spectrum pair `ps`: energies from `_add_events`, the source
position projected to pixels once and repeated for every photon. -/
def pointPiece (prng : ℕ → ℕ → ℚ) (absorb : Option (List ℚ → List Bool))
    (c : EventList) (ebins : List ℚ) (world2pix : ℚ × ℚ → ℚ × ℚ)
    (s : ℕ) (ps : (ℚ × ℚ) × List ℚ) : List ℚ × List ℚ × List ℚ :=
  let eobs := addEventsDraw (prng s) absorb c ebins ps.2
  let xy := world2pix ps.1
  (List.replicate eobs.length xy.1, List.replicate eobs.length xy.2, eobs)

/-- `EventList.add_point_sources`: per source, draw energies with
`_add_events`, project the source position to pixels once, and repeat
that pixel pair for every drawn photon; old arrays come first. -/
def add_point_sources (prng : ℕ → ℕ → ℚ) (absorb : Option (List ℚ → List Bool))
    (world2pix : ℚ × ℚ → ℚ × ℚ) (c : EventList) (ebins : List ℚ)
    (positions : List (ℚ × ℚ)) (spectra : List (List ℚ)) : EventList :=
  let pieces := mapIdxQ (pointPiece prng absorb c ebins world2pix) 0 (positions.zip spectra)
  ⟨[("xpix", getEv c "xpix" ++ flatQ (fun t => t.1) pieces),
    ("ypix", getEv c "ypix" ++ flatQ (fun t => t.2.1) pieces),
    ("eobs", getEv c "eobs" ++ flatQ (fun t => t.2.2) pieces)], c.params⟩

/-- Contents of the internal HDF5 checkpoint written by
`EventList.write_h5_file`. -/
structure H5File where
  exp_time : ℚ
  area : ℚ
  redshift : Option ℚ
  d_a : Option ℚ
  sky_center : ℚ × ℚ
  pix_center : ℚ × ℚ
  dtheta : ℚ
  xpix : List ℚ
  ypix : List ℚ
  xsky : List ℚ
  ysky : List ℚ
  eobs : List ℚ
deriving DecidableEq

/-- `EventList.write_h5_file`; the sky arrays are derived through the
world-coordinate mapping `pix2world` (the lazy `xsky`/`ysky` access). -/
def write_h5_file (pix2world : ℚ × ℚ → ℚ × ℚ) (c : EventList) : H5File :=
  { exp_time := c.params.exposureTime
    area := c.params.area
    redshift := c.params.redshift
    d_a := c.params.dA
    sky_center := c.params.skyCenter
    pix_center := c.params.pixCenter
    dtheta := c.params.dtheta
    xpix := getEv c "xpix"
    ypix := getEv c "ypix"
    xsky := ((getEv c "xpix").zip (getEv c "ypix")).map (fun p => (pix2world p).1)
    ysky := ((getEv c "xpix").zip (getEv c "ypix")).map (fun p => (pix2world p).2)
    eobs := getEv c "eobs" }

/-- `EventList.from_h5_file`: only `xpix`, `ypix`, `eobs` are read back
from the data group (sky coordinates are recomputed lazily later). -/
def from_h5_file (f : H5File) : EventList :=
  { events := [("xpix", f.xpix), ("ypix", f.ypix), ("eobs", f.eobs)]
    params :=
      { exposureTime := f.exp_time
        area := f.area
        redshift := f.redshift
        dA := f.d_a
        skyCenter := f.sky_center
        pixCenter := f.pix_center
        dtheta := f.dtheta } }

/-- Configuration of `PowerLawSourceModel` after `setup_model` ran. -/
structure PowerLawConfig where
  e0 : ℚ
  emin : ℚ
  emax : ℚ
  spectral_norm : ℚ
  scale_factor : ℚ

/-- The vector `norm_fac` of `PowerLawSourceModel.__call__`:
`emax**(1-alpha) - emin**(1-alpha)` overwritten with
`log(emax/emin)` where `alpha == 1`.  `powf`/`logf` stand for the
floating-point `**` and `np.log`. -/
def powerLawNormFac (powf : ℚ → ℚ → ℚ) (logf : ℚ → ℚ) (m : PowerLawConfig)
    (alpha : List ℚ) : List ℚ :=
  alpha.map (fun a =>
    if a = 1 then logf (m.emax / m.emin)
    else powf m.emax (1 - a) - powf m.emin (1 - a))

/-- The vector `norm` handed to the Poisson draw in
`PowerLawSourceModel.__call__`:
`norm = norm_fac * emission * e0**alpha`, then `norm[alpha != 1] /= (1-alpha)`,
then `norm *= spectral_norm * scale_factor`. -/
def powerLawNorms (powf : ℚ → ℚ → ℚ) (logf : ℚ → ℚ) (m : PowerLawConfig)
    (alpha emission : List ℚ) : List ℚ :=
  let nf := powerLawNormFac powf logf m alpha
  let n1 := List.zipWith (fun x p => x * p.2 * powf m.e0 p.1) nf (alpha.zip emission)
  let n2 := List.zipWith (fun x a => if a = 1 then x else x / (1 - a)) n1 alpha
  n2.map (fun x => x * (m.spectral_norm * m.scale_factor))

/-- The closed per-cell expected-count formula as the specification
states it: `norm_fac * rate * e0^alpha / (1 - alpha)` scaled by
`spectral_norm * scale_factor`, with `norm_fac = log(emax/emin)` and the
division omitted at `alpha = 1`. -/
def powerLawLamSpec (powf : ℚ → ℚ → ℚ) (logf : ℚ → ℚ) (m : PowerLawConfig)
    (a em : ℚ) : ℚ :=
  let nf := if a = 1 then logf (m.emax / m.emin)
            else powf m.emax (1 - a) - powf m.emin (1 - a)
  let lam := if a = 1 then nf * em * powf m.e0 a
             else nf * em * powf m.e0 a / (1 - a)
  lam * (m.spectral_norm * m.scale_factor)

/-- Inverse-CDF energy draws for one power-law cell with `cn` photons. -/
def plSample (powf : ℚ → ℚ → ℚ) (unif : ℕ → ℕ → ℚ) (m : PowerLawConfig)
    (a nf : ℚ) (i cn : ℕ) : List ℚ :=
  ((List.range cn).map (unif i)).map (fun u =>
    if a = 1 then m.emin * powf (m.emax / m.emin) u * m.scale_factor
    else powf (powf m.emin (1 - a) + u * nf) (1 / (1 - a)) * m.scale_factor)

/-- The per-cell energy loop of `PowerLawSourceModel.__call__`. -/
def plEnergyLoop (powf : ℚ → ℚ → ℚ) (unif : ℕ → ℕ → ℚ) (m : PowerLawConfig)
    (alpha nf : List ℚ) : ℕ → List ℕ → List ℚ
  | _, [] => []
  | i, cn :: rest =>
    (if cn = 0 then [] else plSample powf unif m (alpha.getD i 0) (nf.getD i 0) i cn)
      ++ plEnergyLoop powf unif m alpha nf (i + 1) rest

/-- `PowerLawSourceModel.__call__`: returns
`(ncells, number_of_photons[active], active_cells, energies[:end_e])`. -/
def powerLawCall (pois : ℕ → ℚ → ℕ) (unif : ℕ → ℕ → ℚ)
    (powf : ℚ → ℚ → ℚ) (logf : ℚ → ℚ) (m : PowerLawConfig)
    (alpha emission : List ℚ) : ℕ × List ℕ × List Bool × List ℚ :=
  let nf := powerLawNormFac powf logf m alpha
  let norms := powerLawNorms powf logf m alpha emission
  let counts := mapIdxQ pois 0 norms
  let energies := plEnergyLoop powf unif m alpha nf 0 counts
  let active := counts.map (fun c => decide (0 < c))
  (active.count true, counts.filter (fun c => decide (0 < c)), active, energies)

/-- The three shapes of the `sigma` configuration of `LineSourceModel`. -/
inductive LineSigma
  | noneB
  | constE (σ : ℚ)
  | fieldS
deriving DecidableEq

/-- Configuration of `LineSourceModel` after `setup_model` ran;
`clight` is the speed of light in the velocity units of the field. -/
structure LineConfig where
  e0 : ℚ
  sigma : LineSigma
  spectral_norm : ℚ
  scale_factor : ℚ
  clight : ℚ

/-- Per-cell Gaussian offsets in the field-broadening branch of
`LineSourceModel.__call__`; `normal σ i j` is the `j`-th draw of cell
`i` with standard deviation `σ`. -/
def lineFieldEnergies (normal : ℚ → ℕ → ℕ → ℚ) (m : LineConfig)
    (sigmaField : List ℚ) : ℕ → List ℕ → List ℚ
  | _, [] => []
  | i, cn :: rest =>
    (List.range cn).map (fun j =>
        m.e0 + normal (sigmaField.getD i 0 * m.e0 / m.clight) i j)
      ++ lineFieldEnergies normal m sigmaField (i + 1) rest

/-- `LineSourceModel.__call__`: Poisson counts from
`emission * spectral_norm * scale_factor` (cgs values), energies at `e0`
plus the configured broadening, all rescaled by `scale_factor`. -/
def lineCall (pois : ℕ → ℚ → ℕ) (normal : ℚ → ℕ → ℕ → ℚ) (m : LineConfig)
    (F sigmaField : List ℚ) : ℕ × List ℕ × List Bool × List ℚ :=
  let counts := mapIdxQ (fun i f => pois i (f * m.spectral_norm * m.scale_factor)) 0 F
  let total := counts.sum
  let energies0 :=
    match m.sigma with
    | .noneB => List.replicate total m.e0
    | .constE σ => (List.range total).map (fun j => m.e0 + normal σ 0 j)
    | .fieldS => lineFieldEnergies normal m sigmaField 0 counts
  let energies := energies0.map (fun e => e * m.scale_factor)
  let active := counts.map (fun c => decide (0 < c))
  (active.count true, counts.filter (fun c => decide (0 < c)), active, energies)

/-- The two shapes of the `Zmet` configuration of `ThermalSourceModel`. -/
inductive ZmetSpec
  | const (z : ℚ)
  | field
deriving DecidableEq

/-- The two shapes of a `var_elem` entry. -/
inductive VarSpec
  | const (v : ℚ)
  | field
deriving DecidableEq

/-- The two energy-sampling strategies of `ThermalSourceModel`. -/
inductive SampleMethod
  | invert_cdf
  | accept_reject
deriving DecidableEq

/-- Configuration and post-`setup_model` state of `ThermalSourceModel`
that `__call__` reads. -/
structure ThermalConfig where
  kT_min : ℚ
  kT_max : ℚ
  kT_bins : List ℚ
  spectral_norm : ℚ
  max_density : Option ℚ
  nei : Bool
  Zmet : ZmetSpec
  Zconvert : ℚ
  varElem : List VarSpec
  mconvert : List ℚ
  method : SampleMethod

/-- The tabulated spectral model: channel midpoints, channel edges, and
the continuum / metal-line / per-variable-element photon spectra
returned by `get_spectrum(kT)`. -/
structure SpecTable where
  emid : List ℚ
  ebins : List ℚ
  cspec : ℚ → List ℚ
  mspec : ℚ → List ℚ
  vspec : ℚ → List (List ℚ)

/-- One chunk of simulation cells: temperature (keV), density,
emission measure, metallicity field, and variable-element fields. -/
structure ThermalChunk where
  kT : List ℚ
  density : List ℚ
  em : List ℚ
  zfield : List ℚ
  elemFields : List (List ℚ)

/-- The density cut `chunk[density_field] < max_density` (all-true when
no cutoff is configured). -/
def densCut (maxd : Option ℚ) (ρ : ℚ) : Bool :=
  match maxd with
  | none => true
  | some md => decide (ρ < md)

/-- Cutoff-masked emission measure `chunk[emission_measure_field] * dens_cut`
for cell `i`. -/
def maskedEMAt (cfg : ThermalConfig) (chunk : ThermalChunk) (i : ℕ) : ℚ :=
  chunk.em.getD i 0 * (if densCut cfg.max_density (chunk.density.getD i 0) then 1 else 0)

/-- `np.digitize(kT, kT_bins) - 1`: the temperature-bin index of `t`. -/
def binIndexAt (cfg : ThermalConfig) (t : ℚ) : ℕ :=
  cfg.kT_bins.countP (fun e => decide (e ≤ t)) - 1

/-- Bin midpoint `kT_bins[ikT] + 0.5 * dkT[ikT]` for temperature `t`. -/
def kTmidAt (cfg : ThermalConfig) (t : ℚ) : ℚ :=
  let ikT := binIndexAt cfg t
  cfg.kT_bins.getD ikT 0
    + (1/2) * (cfg.kT_bins.getD (ikT + 1) 0 - cfg.kT_bins.getD ikT 0)

/-- The per-cell metallicity `metalZ` (zero in NEI mode, broadcast
constant, or field value scaled by `Zconvert`). -/
def metalZAt (cfg : ThermalConfig) (chunk : ThermalChunk) (i : ℕ) : ℚ :=
  if cfg.nei then 0
  else
    match cfg.Zmet with
    | .const z => z
    | .field => chunk.zfield.getD i 0 * cfg.Zconvert

/-- The per-cell variable-element abundances `elemZ[:, i]`. -/
def elemZAt (cfg : ThermalConfig) (chunk : ThermalChunk) (i : ℕ) : List ℚ :=
  (cfg.varElem.zip (cfg.mconvert.zip chunk.elemFields)).map (fun t =>
    match t.1 with
    | .const v => v
    | .field => t.2.2.getD i 0 * t.2.1)

/-- The expected photon count `cell_norm` of cell `i` handed to the
Poisson draw in `ThermalSourceModel.__call__`:
`EM*spectral_norm*(sum cspec + metallicity*sum mspec + sum_j elemZ_j*sum vspec_j)`
with the bin-midpoint spectra of the cell's temperature bin. -/
def thermalLam (table : SpecTable) (cfg : ThermalConfig) (chunk : ThermalChunk)
    (i : ℕ) : ℚ :=
  let kTm := kTmidAt cfg (chunk.kT.getD i 0)
  let cem := maskedEMAt cfg chunk i * cfg.spectral_norm
  let totv := (table.vspec kTm).map List.sum
  (table.cspec kTm).sum * cem
    + (table.mspec kTm).sum * metalZAt cfg chunk i * cem
    + (List.zipWith (fun tv e => tv * e * cem) totv (elemZAt cfg chunk i)).sum

/-- `np.argsort` of the chunk temperatures. -/
def sortIdxBy (kT : List ℚ) : List ℕ :=
  sortBy (fun i j => decide (kT.getD i 0 ≤ kT.getD j 0)) (List.range kT.length)

/-- The sorted cell indices restricted by
`searchsorted(kT_sorted, kT_min)` and `searchsorted(kT_sorted, kT_max)`. -/
def windowIdxs (cfg : ThermalConfig) (kT : List ℚ) : List ℕ :=
  let idxs := sortIdxBy kT
  let sortedVals := idxs.map (fun i => kT.getD i 0)
  let imin := sortedVals.countP (fun t => decide (t < cfg.kT_min))
  let imax := sortedVals.countP (fun t => decide (t < cfg.kT_max))
  (idxs.take imax).drop imin

/-- Group a list into maximal runs of `eqv`-equal adjacent elements;
models the `bincount`/`unique` bin grouping of the pre-sorted cells. -/
def groupRuns (eqv : α → α → Bool) : List α → List (List α)
  | [] => []
  | x :: xs =>
    match groupRuns eqv xs with
    | [] => [[x]]
    | [] :: gs => [x] :: gs
    | (y :: g) :: gs =>
      if eqv x y then (x :: y :: g) :: gs else [x] :: (y :: g) :: gs

/-- The in-place composite CDF of the `invert_cdf` branch:
`cumspec = cumspec_c` (an alias!), `cumspec += metalZ * cumspec_m`,
`cumspec += elemZ_j * cumspec_v[j]`, then `cumspec *= 1/cumspec[-1]`.
The buffer `buf` is the current (already mutated) `cumspec_c`. -/
def cdfComposite (buf cum_m : List ℚ) (cum_v : List (List ℚ)) (z : ℚ)
    (ez : List ℚ) : List ℚ :=
  let c1 := addLists buf (scaleList z cum_m)
  let c2 := (List.zipWith (fun e cv => scaleList e cv) ez cum_v).foldl addLists c1
  scaleList (1 / lastD c2) c2

/-- The in-place composite probability array of the `accept_reject`
branch: `tot_spec = cspec.d` (an alias!), `tot_spec += metalZ * mspec.d`,
`tot_spec += elemZ_j * vspec[j]`, then `tot_spec *= 1/tot_spec.sum()`. -/
def arComposite (buf m : List ℚ) (v : List (List ℚ)) (z : ℚ)
    (ez : List ℚ) : List ℚ :=
  let t1 := addLists buf (scaleList z m)
  let t2 := (List.zipWith (fun e vj => scaleList e vj) ez v).foldl addLists t1
  scaleList (1 / t2.sum) t2

/-- The successive sampling spectra actually used for the nonzero-draw
cells of one temperature bin: the buffer carried from cell to cell is the
aliased, in-place mutated `cumspec_c`. -/
def binUsedSpectra (cum_m : List ℚ) (cum_v : List (List ℚ)) (zf : ℕ → ℚ)
    (ef : ℕ → List ℚ) (buf : List ℚ) : List (ℕ × ℕ) → List (List ℚ)
  | [] => []
  | (i, cn) :: rest =>
    if cn = 0 then binUsedSpectra cum_m cum_v zf ef buf rest
    else
      let used := cdfComposite buf cum_m cum_v (zf i) (ef i)
      used :: binUsedSpectra cum_m cum_v zf ef used rest

/-- The per-cell energy-sampling loop over one temperature bin of
`ThermalSourceModel.__call__`.  `cells` pairs each cell index with its
Poisson draw; `buf` is the running mutated `cumspec_c` (invert_cdf) or
`cspec.d` (accept_reject) buffer. -/
def binLoop (method : SampleMethod) (unif : ℕ → ℕ → ℚ) (choice : ℕ → ℕ → ℕ)
    (emid ebins cum_m m : List ℚ) (cum_v v : List (List ℚ))
    (zf : ℕ → ℚ) (ef : ℕ → List ℚ) (buf : List ℚ) : List (ℕ × ℕ) → List ℚ
  | [] => []
  | (i, cn) :: rest =>
    if cn = 0 then binLoop method unif choice emid ebins cum_m m cum_v v zf ef buf rest
    else
      match method with
      | .invert_cdf =>
        let used := cdfComposite buf cum_m cum_v (zf i) (ef i)
        let randvec := sortQ ((List.range cn).map (unif i))
        randvec.map (fun u => interp1 u used ebins)
          ++ binLoop .invert_cdf unif choice emid ebins cum_m m cum_v v zf ef used rest
      | .accept_reject =>
        let tot := arComposite buf m v (zf i) (ef i)
        ((List.range cn).map (choice i)).map (fun k => emid.getD k 0)
          ++ binLoop .accept_reject unif choice emid ebins cum_m m cum_v v zf ef tot rest

/-- Poisson counts of the cells of one bin group, in processing order. -/
def binPairs (pois : ℕ → ℚ → ℕ) (table : SpecTable) (cfg : ThermalConfig)
    (chunk : ThermalChunk) (g : List ℕ) : List (ℕ × ℕ) :=
  g.map (fun i => (i, pois i (thermalLam table cfg chunk i)))

/-- Energies sampled for one temperature-bin group: the bin spectra are
queried once at the bin midpoint and the mutable buffers initialized
fresh for the group. -/
def groupEnergies (pois : ℕ → ℚ → ℕ) (unif : ℕ → ℕ → ℚ) (choice : ℕ → ℕ → ℕ)
    (table : SpecTable) (cfg : ThermalConfig) (chunk : ThermalChunk)
    (g : List ℕ) : List ℚ :=
  match g with
  | [] => []
  | i0 :: _ =>
    let kTm := kTmidAt cfg (chunk.kT.getD i0 0)
    let cspec := table.cspec kTm
    let mspec := table.mspec kTm
    let vspec := table.vspec kTm
    let cum_m := cumsum0 mspec
    let cum_v := vspec.map cumsum0
    let buf0 := match cfg.method with
                | .invert_cdf => cumsum0 cspec
                | .accept_reject => cspec
    binLoop cfg.method unif choice table.emid table.ebins cum_m mspec cum_v vspec
      (metalZAt cfg chunk) (elemZAt cfg chunk) buf0 (binPairs pois table cfg chunk g)

/-- `ThermalSourceModel.__call__`: `none` models the bare `return` taken
for an empty chunk or when no cell survives the temperature window;
otherwise returns
`(ncells, number_of_photons[active], idxs[active], energies[:end_e])`. -/
def thermalCall (pois : ℕ → ℚ → ℕ) (unif : ℕ → ℕ → ℚ) (choice : ℕ → ℕ → ℕ)
    (table : SpecTable) (cfg : ThermalConfig) (chunk : ThermalChunk) :
    Option (ℕ × List ℕ × List ℕ × List ℚ) :=
  if chunk.kT.length = 0 then none
  else
    let ws := windowIdxs cfg chunk.kT
    if ws.length = 0 then none
    else
      let groups := groupRuns (fun i j =>
        binIndexAt cfg (chunk.kT.getD i 0) == binIndexAt cfg (chunk.kT.getD j 0)) ws
      let pairs := flatQ (binPairs pois table cfg chunk) groups
      let energies := flatQ (groupEnergies pois unif choice table cfg chunk) groups
      let act := pairs.filter (fun p => decide (0 < p.2))
      some (act.length, act.map Prod.snd, act.map Prod.fst, energies)

/-- The runtime state of `ThermalSourceModel` touched by the teardown
methods. -/
structure ThermalRunState where
  emission_measure_field : Option (String × String)
  temperature_field : Option (String × String)
  pbar_open : Bool
  kT_bins : List ℚ
  dkT : List ℚ
  spectral_norm : Option ℚ
  redshift : Option ℚ
deriving DecidableEq

/-- The first `cleanup_model` definition in the class body: clear both
cached field names and close the progress reporter. -/
def cleanup_model_first (s : ThermalRunState) : ThermalRunState :=
  { s with emission_measure_field := none, temperature_field := none,
           pbar_open := false }

/-- The second `cleanup_model` definition in the class body: only close
the progress reporter. -/
def cleanup_model_second (s : ThermalRunState) : ThermalRunState :=
  { s with pbar_open := false }

/-- The class-body method bindings in source order; a later `def` with
the same name overwrites the earlier one in the Python class dict. -/
def thermalClassMethods : List (String × (ThermalRunState → ThermalRunState)) :=
  [("cleanup_model", cleanup_model_first), ("cleanup_model", cleanup_model_second)]

/-- Python attribute resolution on the class dict: the binding executed
last wins. -/
def resolveMethod (name : String) : Option (ThermalRunState → ThermalRunState) :=
  thermalClassMethods.reverse.lookup name

/-- The effective `cleanup_model` method of `ThermalSourceModel`. -/
def cleanup_model (s : ThermalRunState) : ThermalRunState :=
  ((resolveMethod "cleanup_model").getD id) s

/-- Equal-length invariant of the three per-photon arrays of a catalog. -/
def WF (c : EventList) : Prop :=
  (getEv c "ypix").length = numEvents c ∧ (getEv c "eobs").length = numEvents c

/-- A concrete parameter set used for evaluating catalogs. -/
def testParams : Params := ⟨1, 1, none, none, (0, 0), (1, 1), 1⟩

/-- A concrete one-event catalog. -/
def evA : EventList := ⟨[("xpix", [1]), ("ypix", [2]), ("eobs", [3])], testParams⟩

/-- A second concrete one-event catalog. -/
def evB : EventList := ⟨[("xpix", [4]), ("ypix", [5]), ("eobs", [6])], testParams⟩

/-- A concrete empty catalog with exposure 2 s and area 3 cm². -/
def evEmpty : EventList :=
  ⟨[("xpix", []), ("ypix", []), ("eobs", [])], ⟨2, 3, none, none, (0, 0), (1, 1), 1⟩⟩

/-- A concrete thermal configuration with three bin edges and no cutoff. -/
def tcfg : ThermalConfig := ⟨0, 2, [0, 1, 2], 1, none, false, .const 0, 1, [], [], .invert_cdf⟩

/-- The same thermal configuration with `max_density = 1`. -/
def cfgDen : ThermalConfig := ⟨0, 2, [0, 1, 2], 1, some 1, false, .const 0, 1, [], [], .invert_cdf⟩

/-- A concrete one-channel spectral table. -/
def ttable : SpecTable := ⟨[1], [0, 1], fun _ => [1], fun _ => [0], fun _ => []⟩

/-- A concrete one-cell chunk. -/
def tchunk : ThermalChunk := ⟨[1], [0], [1], [], []⟩

/-- A concrete one-cell chunk whose cell density 2 exceeds the cutoff. -/
def chunkDen : ThermalChunk := ⟨[1], [2], [1], [], []⟩

/-! Helper lemmas about the list operations of the embedding. -/

theorem length_insertBy (le : α → α → Bool) (x : α) (l : List α) :
    (insertBy le x l).length = l.length + 1 := by
  induction l with
  | nil => rfl
  | cons y ys ih =>
    unfold insertBy
    split
    · simp
    · simp [ih]

theorem length_sortBy (le : α → α → Bool) (l : List α) :
    (sortBy le l).length = l.length := by
  induction l with
  | nil => rfl
  | cons x xs ih => simp [sortBy, length_insertBy, ih]

theorem length_sortQ (l : List ℚ) : (sortQ l).length = l.length :=
  length_sortBy _ l

theorem length_mapIdxQ (f : ℕ → α → β) : ∀ (i : ℕ) (l : List α),
    (mapIdxQ f i l).length = l.length := by
  intro i l
  induction l generalizing i with
  | nil => rfl
  | cons x xs ih => simp [mapIdxQ, ih]

theorem length_flatQ (f : α → List β) (l : List α) :
    (flatQ f l).length = (l.map (fun a => (f a).length)).sum := by
  induction l with
  | nil => rfl
  | cons x xs ih => simp [flatQ, ih]

theorem sum_map_flatQ (f : α → List β) (h : β → ℕ) (l : List α) :
    ((flatQ f l).map h).sum = (l.map (fun a => ((f a).map h).sum)).sum := by
  induction l with
  | nil => rfl
  | cons x xs ih => simp [flatQ, ih]

theorem sum_filter_pos (l : List (ℕ × ℕ)) :
    ((l.filter (fun p => decide (0 < p.2))).map Prod.snd).sum
      = (l.map Prod.snd).sum := by
  induction l with
  | nil => rfl
  | cons p rest ih =>
    by_cases h : 0 < p.2
    · simp [List.filter_cons, h, ih]
    · have h0 : p.2 = 0 := Nat.eq_zero_of_not_pos h
      simp [List.filter_cons, h, ih, h0]

theorem sum_filter_posN (l : List ℕ) :
    (l.filter (fun c => decide (0 < c))).sum = l.sum := by
  induction l with
  | nil => rfl
  | cons c rest ih =>
    by_cases h : 0 < c
    · simp [List.filter_cons, h, ih]
    · have h0 : c = 0 := Nat.eq_zero_of_not_pos h
      simp [List.filter_cons, h, ih, h0]

theorem count_true_filter (l : List ℕ) :
    (l.map (fun c => decide (0 < c))).count true
      = (l.filter (fun c => decide (0 < c))).length := by
  induction l with
  | nil => rfl
  | cons c rest ih =>
    by_cases h : 0 < c
    · simp [List.filter_cons, List.count_cons, h, ih]
    · simp [List.filter_cons, List.count_cons, h, ih]

theorem sum_zipWith_zero (l1 l2 : List ℚ) :
    (List.zipWith (fun _ _ => (0 : ℚ)) l1 l2).sum = 0 := by
  induction l1 generalizing l2 with
  | nil => rfl
  | cons x xs ih => cases l2 <;> simp [ih]

theorem maskFilter_nil (m : List Bool) : maskFilter m ([] : List α) = [] := by
  cases m with
  | nil => rfl
  | cons b ms => cases b <;> rfl

theorem maskFilter_length (m : List Bool) (v : List α) (h : m.length = v.length) :
    (maskFilter m v).length = m.count true := by
  induction m generalizing v with
  | nil => simp [maskFilter]
  | cons b ms ih =>
    cases v with
    | nil => simp at h
    | cons x xs =>
      have h2 : ms.length = xs.length := by simpa using h
      cases b <;> simp [maskFilter, List.count_cons, ih xs h2]

theorem maskFilter_all_true (m : List Bool) (v : List α)
    (hall : ∀ b ∈ m, b = true) (h : m.length = v.length) :
    maskFilter m v = v := by
  induction m generalizing v with
  | nil => cases v with
    | nil => rfl
    | cons x xs => simp at h
  | cons b ms ih =>
    cases v with
    | nil => simp at h
    | cons x xs =>
      have hb : b = true := hall b (by simp)
      subst hb
      have h2 : ms.length = xs.length := by simpa using h
      simp [maskFilter, ih xs (fun b hb => hall b (by simp [hb])) h2]

theorem lookupEv_map (g : List ℚ → List ℚ) (k : String)
    (l : List (String × List ℚ)) :
    lookupEv k (l.map (fun p => (p.1, g p.2))) = (lookupEv k l).map g := by
  induction l with
  | nil => rfl
  | cons p rest ih =>
    obtain ⟨k2, v⟩ := p
    by_cases h : k = k2 <;> simp [lookupEv, h, ih]

theorem addEL_lookup : ∀ (la lb : List (String × List ℚ)),
    la.map Prod.fst = lb.map Prod.fst → ∀ k, k ∈ la.map Prod.fst →
    lookupEv k ((la.zip lb).map (fun p => (p.1.1, p.1.2 ++ p.2.2)))
      = some (((lookupEv k la).getD []) ++ ((lookupEv k lb).getD [])) := by
  intro la
  induction la with
  | nil => intro lb hk k hmem; simp at hmem
  | cons pa ta ih =>
    intro lb hk k hmem
    cases lb with
    | nil => simp at hk
    | cons pb tb =>
      obtain ⟨ka, va⟩ := pa
      obtain ⟨kb, vb⟩ := pb
      simp at hk
      obtain ⟨hk1, hk2⟩ := hk
      subst hk1
      by_cases h : k = ka
      · subst h
        simp [lookupEv]
      · have hmem2 : k ∈ ta.map Prod.fst := by
          simp at hmem
          rcases hmem with h1 | h1
          · exact absurd h1 h
          · simpa using h1
        simp only [List.zip_cons_cons, List.map_cons, lookupEv, if_neg h]
        exact ih tb hk2 k hmem2

theorem events_shape {l : List (String × List ℚ)}
    (h : l.map Prod.fst = ["xpix", "ypix", "eobs"]) :
    ∃ v1 v2 v3, l = [("xpix", v1), ("ypix", v2), ("eobs", v3)] := by
  rcases l with _ | ⟨⟨k1, v1⟩, l1⟩
  · simp at h
  rcases l1 with _ | ⟨⟨k2, v2⟩, l2⟩
  · simp at h
  rcases l2 with _ | ⟨⟨k3, v3⟩, l3⟩
  · simp at h
  rcases l3 with _ | ⟨p4, l4⟩
  · simp at h
    obtain ⟨h1, h2, h3⟩ := h
    subst h1; subst h2; subst h3
    exact ⟨v1, v2, v3, rfl⟩
  · simp at h

theorem getEv_std_x (xs ys es : List ℚ) (p : Params) :
    getEv ⟨[("xpix", xs), ("ypix", ys), ("eobs", es)], p⟩ "xpix" = xs := rfl

theorem getEv_std_y (xs ys es : List ℚ) (p : Params) :
    getEv ⟨[("xpix", xs), ("ypix", ys), ("eobs", es)], p⟩ "ypix" = ys := rfl

theorem getEv_std_e (xs ys es : List ℚ) (p : Params) :
    getEv ⟨[("xpix", xs), ("ypix", ys), ("eobs", es)], p⟩ "eobs" = es := rfl

theorem getD_range_map (f : ℕ → ℚ) {n j : ℕ} (h : j < n) :
    ((List.range n).map f).getD j 0 = f j := by
  have hlen : j < ((List.range n).map f).length := by simpa using h
  rw [List.getD_eq_getElem _ _ hlen]
  simp

theorem plSample_length (powf : ℚ → ℚ → ℚ) (unif : ℕ → ℕ → ℚ)
    (m : PowerLawConfig) (a nf : ℚ) (i cn : ℕ) :
    (plSample powf unif m a nf i cn).length = cn := by
  simp [plSample]

theorem plEnergyLoop_length (powf : ℚ → ℚ → ℚ) (unif : ℕ → ℕ → ℚ)
    (m : PowerLawConfig) (alpha nf : List ℚ) :
    ∀ (counts : List ℕ) (i : ℕ),
      (plEnergyLoop powf unif m alpha nf i counts).length = counts.sum := by
  intro counts
  induction counts with
  | nil => intro i; rfl
  | cons cn rest ih =>
    intro i
    by_cases h : cn = 0
    · simp [plEnergyLoop, h, ih]
    · simp [plEnergyLoop, h, ih, plSample_length]

theorem lineFieldEnergies_length (normal : ℚ → ℕ → ℕ → ℚ) (m : LineConfig)
    (sigmaField : List ℚ) :
    ∀ (counts : List ℕ) (i : ℕ),
      (lineFieldEnergies normal m sigmaField i counts).length = counts.sum := by
  intro counts
  induction counts with
  | nil => intro i; rfl
  | cons cn rest ih => intro i; simp [lineFieldEnergies, ih]

theorem binLoop_length (method : SampleMethod) (unif : ℕ → ℕ → ℚ)
    (choice : ℕ → ℕ → ℕ) (emid ebins cum_m m : List ℚ) (cum_v v : List (List ℚ))
    (zf : ℕ → ℚ) (ef : ℕ → List ℚ) :
    ∀ (cells : List (ℕ × ℕ)) (buf : List ℚ),
      (binLoop method unif choice emid ebins cum_m m cum_v v zf ef buf cells).length
        = (cells.map Prod.snd).sum := by
  intro cells
  induction cells with
  | nil => intro buf; rfl
  | cons hd rest ih =>
    intro buf
    obtain ⟨i, cn⟩ := hd
    by_cases h : cn = 0
    · simp [binLoop, h, ih]
    · cases method <;> simp [binLoop, h, ih, length_sortQ]

theorem groupEnergies_length (pois : ℕ → ℚ → ℕ) (unif : ℕ → ℕ → ℚ)
    (choice : ℕ → ℕ → ℕ) (table : SpecTable) (cfg : ThermalConfig)
    (chunk : ThermalChunk) (g : List ℕ) :
    (groupEnergies pois unif choice table cfg chunk g).length
      = ((binPairs pois table cfg chunk g).map Prod.snd).sum := by
  cases g with
  | nil => rfl
  | cons i0 rest =>
    simp only [groupEnergies]
    exact binLoop_length _ _ _ _ _ _ _ _ _ _ _ _ _

theorem flat_pieces_len (f : ℕ → α → List ℚ × List ℚ × List ℚ)
    (hf : ∀ s x, (f s x).1.length = (f s x).2.2.length
      ∧ (f s x).2.1.length = (f s x).2.2.length) :
    ∀ (l : List α) (s : ℕ),
      (flatQ (fun t => t.1) (mapIdxQ f s l)).length
          = (flatQ (fun t => t.2.2) (mapIdxQ f s l)).length
      ∧ (flatQ (fun t => t.2.1) (mapIdxQ f s l)).length
          = (flatQ (fun t => t.2.2) (mapIdxQ f s l)).length := by
  intro l
  induction l with
  | nil => intro s; exact ⟨rfl, rfl⟩
  | cons x xs ih =>
    intro s
    constructor
    · simp [flatQ, mapIdxQ, (ih (s + 1)).1, (hf s x).1]
    · simp [flatQ, mapIdxQ, (ih (s + 1)).2, (hf s x).2]

/-! The claim theorems. -/

/-- C1: evaluating the invert_cdf inner loop of
`ThermalSourceModel.__call__` on a two-cell temperature bin (continuum
spectrum `[1,0]`, metal-line spectrum `[0,1]`, cell metallicities `1`
then `0`, one photon drawn for each cell).  The sampling CDF actually
used for the second cell is `[0, 1/2, 1]` — the buffer left behind by
the first cell, because `cumspec = cumspec_c` aliases and then mutates
the per-bin continuum CDF in place — whereas the fresh normalized
composite for that cell alone is `[0, 1, 1]`.  The two differ, so the
per-cell spectrum is *not* independent of the cells processed before
it. -/
theorem thermal_cell_spectrum_not_fresh :
    binUsedSpectra (cumsum0 [0, 1]) [] (fun i => if i = 0 then 1 else 0)
        (fun _ => []) (cumsum0 [1, 0]) [(0, 1), (1, 1)]
      = [[0, 1/2, 1], [0, 1/2, 1]]
    ∧ cdfComposite (cumsum0 [1, 0]) (cumsum0 [0, 1]) [] 0 [] = [0, 1, 1]
    ∧ ([0, 1/2, 1] : List ℚ) ≠ [0, 1, 1] := by
  refine ⟨?_, ?_, ?_⟩ <;>
    norm_num [binUsedSpectra, cdfComposite, cumsum0, cumsum, cumsumFrom,
      addLists, scaleList, lastD]

/-- C2: for catalogs whose `events` dicts carry the same keys in the
same order (with `xpix` among them), `C + C'` concatenates every
per-key array in order and adds the event counts. -/
theorem eventlist_add_concat (a b : EventList)
    (hk : a.events.map Prod.fst = b.events.map Prod.fst)
    (hx : "xpix" ∈ a.events.map Prod.fst) :
    numEvents (addEL a b) = numEvents a + numEvents b
    ∧ ∀ k ∈ a.events.map Prod.fst,
        getEv (addEL a b) k = getEv a k ++ getEv b k := by
  have hget : ∀ k ∈ a.events.map Prod.fst,
      getEv (addEL a b) k = getEv a k ++ getEv b k := by
    intro k hkmem
    unfold getEv addEL
    rw [addEL_lookup a.events b.events hk k hkmem]
    rfl
  refine ⟨?_, hget⟩
  have h := hget "xpix" hx
  unfold numEvents
  rw [h, List.length_append]

/-- Witness for C2 at two concrete one-event catalogs. -/
theorem eventlist_add_concat_witness :
    ("xpix" ∈ evA.events.map Prod.fst)
    ∧ numEvents (addEL evA evB) = numEvents evA + numEvents evB
    ∧ getEv (addEL evA evB) "xpix" = getEv evA "xpix" ++ getEv evB "xpix" :=
  ⟨by decide,
   (eventlist_add_concat evA evB (by decide) (by decide)).1,
   (eventlist_add_concat evA evB (by decide) (by decide)).2 "xpix" (by decide)⟩

/-- C3: writing a catalog with `write_h5_file` and reading the file back
with `from_h5_file` yields the identical `xpix`, `ypix` and `eobs`
arrays and identical parameters (exposure time, area, optional redshift
and angular-diameter distance, sky center, pixel center, angular
scale). -/
theorem eventlist_h5_roundtrip (pix2world : ℚ × ℚ → ℚ × ℚ) (c : EventList) :
    getEv (from_h5_file (write_h5_file pix2world c)) "xpix" = getEv c "xpix"
    ∧ getEv (from_h5_file (write_h5_file pix2world c)) "ypix" = getEv c "ypix"
    ∧ getEv (from_h5_file (write_h5_file pix2world c)) "eobs" = getEv c "eobs"
    ∧ (from_h5_file (write_h5_file pix2world c)).params = c.params :=
  ⟨rfl, rfl, rfl, rfl⟩

/-- C4: `filter_events` fails with the message
`"No events are inside this region!"` exactly when zero events match the
region; and when every event matches (and there is at least one), it
returns a catalog with the identical per-key arrays and parameters. -/
theorem filter_events_region (inside : ℚ → ℚ → Bool) (c : EventList) :
    (filter_events inside c = Except.error "No events are inside this region!"
      ↔ (matchMask inside c).count true = 0)
    ∧ (c.events.map Prod.fst = ["xpix", "ypix", "eobs"] →
        (∀ p ∈ c.events, p.2.length = numEvents c) →
        (∀ b ∈ matchMask inside c, b = true) →
        0 < numEvents c →
        filter_events inside c = Except.ok ⟨c.events, c.params⟩) := by
  constructor
  · by_cases h : (matchMask inside c).count true = 0 <;> simp [filter_events, h]
  · intro hkeys hlen hall hpos
    obtain ⟨ev, pr⟩ := c
    obtain ⟨v1, v2, v3, hev⟩ := events_shape hkeys
    subst hev
    have h2 : v2.length = v1.length := hlen ("ypix", v2) (by simp)
    have h3 : v3.length = v1.length := hlen ("eobs", v3) (by simp)
    have hmlen : (matchMask inside ⟨[("xpix", v1), ("ypix", v2), ("eobs", v3)], pr⟩).length
        = v1.length := by
      show (List.zipWith _ v1 v2).length = v1.length
      rw [List.length_zipWith, h2, Nat.min_self]
    have hcnt : (matchMask inside ⟨[("xpix", v1), ("ypix", v2), ("eobs", v3)], pr⟩).count true
        = v1.length := by
      rw [List.count_eq_length.mpr (fun b hb => (hall b hb).symm), hmlen]
    have hp2 : 0 < v1.length := hpos
    have hne : ¬((matchMask inside ⟨[("xpix", v1), ("ypix", v2), ("eobs", v3)], pr⟩).count true = 0) := by
      rw [hcnt]
      omega
    have hm1 := maskFilter_all_true _ v1 hall hmlen
    have hm2 := maskFilter_all_true _ v2 hall (by rw [hmlen, h2])
    have hm3 := maskFilter_all_true _ v3 hall (by rw [hmlen, h3])
    simp only [filter_events]
    rw [if_neg hne]
    simp [hm1, hm2, hm3]

/-- Witness for C4 at a concrete one-event catalog and an all-inclusive
region. -/
theorem filter_events_region_witness :
    0 < numEvents evA
    ∧ filter_events (fun _ _ => true) evA = Except.ok ⟨evA.events, evA.params⟩ :=
  ⟨by decide,
   (filter_events_region (fun _ _ => true) evA).2 (by decide) (by decide)
     (by decide) (by decide)⟩

/-- C5: in `PowerLawSourceModel.__call__`, the vector of expected photon
counts handed to the Poisson draw equals, cell by cell, the closed
formula `norm_fac * rate * e0^alpha / (1-alpha)` scaled by
`spectral_norm * scale_factor`, with `norm_fac = log(emax/emin)` and the
division omitted exactly where `alpha = 1`. -/
theorem powerlaw_lambda_formula (powf : ℚ → ℚ → ℚ) (logf : ℚ → ℚ)
    (m : PowerLawConfig) (alpha emission : List ℚ) :
    powerLawNorms powf logf m alpha emission
      = List.zipWith (powerLawLamSpec powf logf m) alpha emission := by
  induction alpha generalizing emission with
  | nil => simp [powerLawNorms, powerLawNormFac]
  | cons a as ih =>
    cases emission with
    | nil => simp [powerLawNorms, powerLawNormFac]
    | cons e es =>
      have h := ih es
      simp only [powerLawNorms, powerLawNormFac, List.map_cons,
        List.zip_cons_cons, List.zipWith_cons_cons, List.cons.injEq] at h ⊢
      constructor
      · by_cases h1 : a = 1 <;> simp [powerLawLamSpec, h1]
      · exact h

/-- C6: with a configured `max_density`, a cell whose density is at or
above the cutoff has its emission measure zeroed by the density cut, so
its expected photon count is exactly zero — for every spectral table,
temperature, metallicity and variable-element abundance — and the
Poisson draw returns zero photons. -/
theorem thermal_max_density_zero (pois : ℕ → ℚ → ℕ) (table : SpecTable)
    (cfg : ThermalConfig) (chunk : ThermalChunk) (i : ℕ) (md : ℚ)
    (hmd : cfg.max_density = some md) (hρ : md ≤ chunk.density.getD i 0)
    (hp : pois i 0 = 0) :
    maskedEMAt cfg chunk i = 0
    ∧ thermalLam table cfg chunk i = 0
    ∧ pois i (thermalLam table cfg chunk i) = 0 := by
  have hcut : densCut cfg.max_density (chunk.density.getD i 0) = false := by
    rw [hmd]
    simp only [densCut, decide_eq_false_iff_not, not_lt]
    exact hρ
  have hem : maskedEMAt cfg chunk i = 0 := by
    unfold maskedEMAt
    rw [hcut]
    simp
  have hlam : thermalLam table cfg chunk i = 0 := by
    simp [thermalLam, hem, sum_zipWith_zero]
  exact ⟨hem, hlam, by rw [hlam]; exact hp⟩

/-- Witness for C6 at a one-cell chunk whose density 2 exceeds the
cutoff 1. -/
theorem thermal_max_density_zero_witness :
    ((1 : ℚ) ≤ chunkDen.density.getD 0 0)
    ∧ maskedEMAt cfgDen chunkDen 0 = 0
    ∧ thermalLam ttable cfgDen chunkDen 0 = 0
    ∧ (fun _ _ => 0 : ℕ → ℚ → ℕ) 0 (thermalLam ttable cfgDen chunkDen 0) = 0 :=
  ⟨by norm_num [chunkDen],
   (thermal_max_density_zero (fun _ _ => 0) ttable cfgDen chunkDen 0 1 rfl
     (by norm_num [chunkDen]) rfl).1,
   (thermal_max_density_zero (fun _ _ => 0) ttable cfgDen chunkDen 0 1 rfl
     (by norm_num [chunkDen]) rfl).2.1,
   (thermal_max_density_zero (fun _ _ => 0) ttable cfgDen chunkDen 0 1 rfl
     (by norm_num [chunkDen]) rfl).2.2⟩

/-- C7: with no absorption model, `add_background` adds exactly
`exp_time * area * sum(spectrum)` new events whenever that expected
count is an integer, and every added pixel coordinate lies within
`[0.5, 2*pix_center - 0.5]` on its axis, given that the uniform sampler
honors its half-open range contract. -/
theorem add_background_count_bounds (prng : ℕ → ℚ) (uniform : ℚ → ℚ → ℕ → ℚ)
    (c : EventList) (ebins spectrum : List ℚ) (n : ℕ)
    (hu : ∀ lo hi j, lo < hi → lo ≤ uniform lo hi j ∧ uniform lo hi j < hi)
    (hpx : 1/2 < 2 * c.params.pixCenter.1 - 1/2)
    (hpy : 1/2 < 2 * c.params.pixCenter.2 - 1/2)
    (hn : c.params.exposureTime * c.params.area * spectrum.sum = (n : ℚ)) :
    numEvents (add_background prng uniform none c ebins spectrum)
        = numEvents c + n
    ∧ ∀ j, j < n →
        (1/2 ≤ (getEv (add_background prng uniform none c ebins spectrum) "xpix").getD j 0
        ∧ (getEv (add_background prng uniform none c ebins spectrum) "xpix").getD j 0
            ≤ 2 * c.params.pixCenter.1 - 1/2
        ∧ 1/2 ≤ (getEv (add_background prng uniform none c ebins spectrum) "ypix").getD j 0
        ∧ (getEv (add_background prng uniform none c ebins spectrum) "ypix").getD j 0
            ≤ 2 * c.params.pixCenter.2 - 1/2) := by
  have hnp : numPhotonsOf c spectrum = n := by
    simp [numPhotonsOf, hn]
  have hlen_e : (addEventsDraw prng none c ebins spectrum).length = n := by
    simp [addEventsDraw, length_sortQ, hnp]
  have hx : getEv (add_background prng uniform none c ebins spectrum) "xpix"
      = (List.range (addEventsDraw prng none c ebins spectrum).length).map
          (uniform (1/2) (2 * c.params.pixCenter.1 - 1/2)) ++ getEv c "xpix" := rfl
  have hy : getEv (add_background prng uniform none c ebins spectrum) "ypix"
      = (List.range (addEventsDraw prng none c ebins spectrum).length).map
          (uniform (1/2) (2 * c.params.pixCenter.2 - 1/2)) ++ getEv c "ypix" := rfl
  constructor
  · unfold numEvents
    rw [hx, List.length_append]
    simp [hlen_e]
    omega
  · intro j hj
    have hjx : j < ((List.range (addEventsDraw prng none c ebins spectrum).length).map
        (uniform (1/2) (2 * c.params.pixCenter.1 - 1/2))).length := by
      simp [hlen_e]
      exact hj
    have hjy : j < ((List.range (addEventsDraw prng none c ebins spectrum).length).map
        (uniform (1/2) (2 * c.params.pixCenter.2 - 1/2))).length := by
      simp [hlen_e]
      exact hj
    have hjn : j < (addEventsDraw prng none c ebins spectrum).length := by
      rw [hlen_e]
      exact hj
    obtain ⟨hb1, hb2⟩ := hu (1/2) (2 * c.params.pixCenter.1 - 1/2) j hpx
    obtain ⟨hc1, hc2⟩ := hu (1/2) (2 * c.params.pixCenter.2 - 1/2) j hpy
    rw [hx, hy, List.getD_append _ _ _ _ hjx, List.getD_append _ _ _ _ hjy,
      getD_range_map _ hjn, getD_range_map _ hjn]
    exact ⟨hb1, le_of_lt hb2, hc1, le_of_lt hc2⟩

/-- Witness for C7 at the empty 2 s × 3 cm² catalog, a one-bin unit
spectrum (six expected photons) and a sampler returning the lower bound. -/
theorem add_background_count_bounds_witness :
    (evEmpty.params.exposureTime * evEmpty.params.area * ([1] : List ℚ).sum = ((6 : ℕ) : ℚ))
    ∧ numEvents (add_background (fun _ => 0) (fun lo _ _ => lo) none evEmpty [0, 1] [1])
        = numEvents evEmpty + 6
    ∧ 1/2 ≤ (getEv (add_background (fun _ => 0) (fun lo _ _ => lo) none evEmpty [0, 1] [1]) "xpix").getD 0 0 :=
  ⟨by norm_num [evEmpty],
   (add_background_count_bounds (fun _ => 0) (fun lo _ _ => lo) evEmpty [0, 1] [1] 6
     (fun lo hi j h => ⟨le_refl lo, h⟩) (by norm_num [evEmpty]) (by norm_num [evEmpty])
     (by norm_num [evEmpty])).1,
   ((add_background_count_bounds (fun _ => 0) (fun lo _ _ => lo) evEmpty [0, 1] [1] 6
     (fun lo hi j h => ⟨le_refl lo, h⟩) (by norm_num [evEmpty]) (by norm_num [evEmpty])
     (by norm_num [evEmpty])).2 0 (by norm_num)).1⟩

/-- C8: the effective teardown of `ThermalSourceModel` is the second
`cleanup_model` definition (Python's class dict keeps the last binding),
which only closes the progress reporter; the cached emission-measure and
temperature field names and all other runtime state are left
unchanged. -/
theorem thermal_cleanup_frame (s : ThermalRunState) :
    (cleanup_model s).emission_measure_field = s.emission_measure_field
    ∧ (cleanup_model s).temperature_field = s.temperature_field
    ∧ (cleanup_model s).kT_bins = s.kT_bins
    ∧ (cleanup_model s).dkT = s.dkT
    ∧ (cleanup_model s).spectral_norm = s.spectral_norm
    ∧ (cleanup_model s).redshift = s.redshift
    ∧ (cleanup_model s).pbar_open = false
    ∧ resolveMethod "cleanup_model" = some cleanup_model_second :=
  ⟨rfl, rfl, rfl, rfl, rfl, rfl, rfl, rfl⟩

/-- C9: every catalog-producing operation — construction, merge with
`+`, `add_background`, `add_point_sources`, `filter_events`, and
deserialization from the checkpoint format — yields a catalog whose
`xpix`, `ypix` and `eobs` arrays all have the same length, equal to
`num_events` (given well-formed inputs). -/
theorem eventlist_ops_length_invariant :
    (∀ (xs ys es : List ℚ) (p : Params),
      ys.length = xs.length → es.length = xs.length → WF (mkStd xs ys es p))
    ∧ (∀ a b : EventList,
        a.events.map Prod.fst = ["xpix", "ypix", "eobs"] →
        b.events.map Prod.fst = ["xpix", "ypix", "eobs"] →
        WF a → WF b → WF (addEL a b))
    ∧ (∀ (prng : ℕ → ℚ) (uniform : ℚ → ℚ → ℕ → ℚ)
        (absorb : Option (List ℚ → List Bool)) (c : EventList)
        (ebins spectrum : List ℚ),
        WF c → WF (add_background prng uniform absorb c ebins spectrum))
    ∧ (∀ (prng : ℕ → ℕ → ℚ) (absorb : Option (List ℚ → List Bool))
        (world2pix : ℚ × ℚ → ℚ × ℚ) (c : EventList) (ebins : List ℚ)
        (positions : List (ℚ × ℚ)) (spectra : List (List ℚ)),
        WF c → WF (add_point_sources prng absorb world2pix c ebins positions spectra))
    ∧ (∀ (inside : ℚ → ℚ → Bool) (c out : EventList),
        WF c → filter_events inside c = Except.ok out → WF out)
    ∧ (∀ f : H5File,
        f.ypix.length = f.xpix.length → f.eobs.length = f.xpix.length →
        WF (from_h5_file f)) := by
  refine ⟨?_, ?_, ?_, ?_, ?_, ?_⟩
  · exact fun xs ys es p h1 h2 => ⟨h1, h2⟩
  · intro a b hka hkb hwa hwb
    obtain ⟨ea, pa⟩ := a
    obtain ⟨eb, pb⟩ := b
    obtain ⟨a1, a2, a3, hea⟩ := events_shape hka
    subst hea
    obtain ⟨b1, b2, b3, heb⟩ := events_shape hkb
    subst heb
    have h1 : a2.length = a1.length := hwa.1
    have h2 : a3.length = a1.length := hwa.2
    have h3 : b2.length = b1.length := hwb.1
    have h4 : b3.length = b1.length := hwb.2
    refine ⟨?_, ?_⟩
    · show (a2 ++ b2).length = (a1 ++ b1).length
      simp [h1, h3]
    · show (a3 ++ b3).length = (a1 ++ b1).length
      simp [h2, h4]
  · intro prng uniform absorb c ebins spectrum hWF
    obtain ⟨h1, h2⟩ := hWF
    unfold numEvents at h1 h2
    have hx : getEv (add_background prng uniform absorb c ebins spectrum) "xpix"
        = (List.range (addEventsDraw prng absorb c ebins spectrum).length).map
            (uniform (1/2) (2 * c.params.pixCenter.1 - 1/2)) ++ getEv c "xpix" := rfl
    have hy : getEv (add_background prng uniform absorb c ebins spectrum) "ypix"
        = (List.range (addEventsDraw prng absorb c ebins spectrum).length).map
            (uniform (1/2) (2 * c.params.pixCenter.2 - 1/2)) ++ getEv c "ypix" := rfl
    have he : getEv (add_background prng uniform absorb c ebins spectrum) "eobs"
        = addEventsDraw prng absorb c ebins spectrum ++ getEv c "eobs" := rfl
    refine ⟨?_, ?_⟩
    · unfold numEvents
      rw [hy, hx]
      simp [List.length_append]
      omega
    · unfold numEvents
      rw [he, hx]
      simp [List.length_append]
      omega
  · intro prng absorb world2pix c ebins positions spectra hWF
    obtain ⟨h1, h2⟩ := hWF
    unfold numEvents at h1 h2
    have hf : ∀ (s : ℕ) (ps : (ℚ × ℚ) × List ℚ),
        (pointPiece prng absorb c ebins world2pix s ps).1.length
          = (pointPiece prng absorb c ebins world2pix s ps).2.2.length
        ∧ (pointPiece prng absorb c ebins world2pix s ps).2.1.length
          = (pointPiece prng absorb c ebins world2pix s ps).2.2.length := by
      intro s ps
      simp [pointPiece]
    obtain ⟨hf1, hf2⟩ := flat_pieces_len (pointPiece prng absorb c ebins world2pix)
      hf (positions.zip spectra) 0
    have hx : getEv (add_point_sources prng absorb world2pix c ebins positions spectra) "xpix"
        = getEv c "xpix" ++ flatQ (fun t => t.1)
            (mapIdxQ (pointPiece prng absorb c ebins world2pix) 0 (positions.zip spectra)) := rfl
    have hy : getEv (add_point_sources prng absorb world2pix c ebins positions spectra) "ypix"
        = getEv c "ypix" ++ flatQ (fun t => t.2.1)
            (mapIdxQ (pointPiece prng absorb c ebins world2pix) 0 (positions.zip spectra)) := rfl
    have he : getEv (add_point_sources prng absorb world2pix c ebins positions spectra) "eobs"
        = getEv c "eobs" ++ flatQ (fun t => t.2.2)
            (mapIdxQ (pointPiece prng absorb c ebins world2pix) 0 (positions.zip spectra)) := rfl
    refine ⟨?_, ?_⟩
    · unfold numEvents
      rw [hy, hx]
      simp [List.length_append]
      omega
    · unfold numEvents
      rw [he, hx]
      simp [List.length_append]
      omega
  · intro inside c out hWF h
    obtain ⟨h1, h2⟩ := hWF
    have hyx : (getEv c "ypix").length = (getEv c "xpix").length := h1
    have hex : (getEv c "eobs").length = (getEv c "xpix").length := h2
    have hok : out = ⟨c.events.map (fun p => (p.1, maskFilter (matchMask inside c) p.2)),
        c.params⟩ := by
      simp only [filter_events] at h
      split at h
      · simp at h
      · exact (Except.ok.inj h).symm
    have hget : ∀ k, getEv out k = maskFilter (matchMask inside c) (getEv c k) := by
      intro k
      rw [hok]
      show (lookupEv k (c.events.map
          (fun p => (p.1, maskFilter (matchMask inside c) p.2)))).getD [] = _
      rw [lookupEv_map]
      cases hlk : lookupEv k c.events
      · simp [getEv, hlk, maskFilter_nil]
      · simp [getEv, hlk]
    have hmask : (matchMask inside c).length = (getEv c "xpix").length := by
      unfold matchMask
      rw [List.length_zipWith, hyx, Nat.min_self]
    refine ⟨?_, ?_⟩
    · unfold numEvents
      rw [hget "ypix", hget "xpix",
        maskFilter_length _ _ (by rw [hmask, hyx]),
        maskFilter_length _ _ hmask]
    · unfold numEvents
      rw [hget "eobs", hget "xpix",
        maskFilter_length _ _ (by rw [hmask, hex]),
        maskFilter_length _ _ hmask]
  · exact fun f h1 h2 => ⟨h1, h2⟩

/-- Witness for C9: each operation evaluated at concrete catalogs. -/
theorem eventlist_ops_length_invariant_witness :
    WF (mkStd [1] [2] [3] testParams)
    ∧ WF (addEL evA evB)
    ∧ WF (add_background (fun _ => 0) (fun _ _ _ => 0) none evA [] [])
    ∧ WF (add_point_sources (fun _ _ => 0) none (fun q => q) evA [] [] [])
    ∧ WF evA
    ∧ WF (from_h5_file ⟨1, 1, none, none, (0, 0), (1, 1), 1, [1], [2], [], [], [3]⟩) :=
  ⟨eventlist_ops_length_invariant.1 [1] [2] [3] testParams rfl rfl,
   eventlist_ops_length_invariant.2.1 evA evB (by decide) (by decide) ⟨rfl, rfl⟩ ⟨rfl, rfl⟩,
   eventlist_ops_length_invariant.2.2.1 (fun _ => 0) (fun _ _ _ => 0) none evA [] [] ⟨rfl, rfl⟩,
   eventlist_ops_length_invariant.2.2.2.1 (fun _ _ => 0) none (fun q => q) evA [] [] [] ⟨rfl, rfl⟩,
   eventlist_ops_length_invariant.2.2.2.2.1 (fun _ _ => true) evA evA ⟨rfl, rfl⟩ rfl,
   eventlist_ops_length_invariant.2.2.2.2.2 ⟨1, 1, none, none, (0, 0), (1, 1), 1, [1], [2], [], [], [3]⟩ rfl rfl⟩

/-- C10: the tuple returned by each emission model's per-chunk
operation is internally consistent: the active-cell count equals the
length of the per-cell photon-count array and the size of the selector
(true-count of the boolean mask, or length of the index list), and the
energies array length equals the sum of the returned photon counts. -/
theorem call_tuple_consistent :
    (∀ (pois : ℕ → ℚ → ℕ) (unif : ℕ → ℕ → ℚ) (powf : ℚ → ℚ → ℚ) (logf : ℚ → ℚ)
        (m : PowerLawConfig) (alpha emission : List ℚ),
      (powerLawCall pois unif powf logf m alpha emission).2.1.length
          = (powerLawCall pois unif powf logf m alpha emission).1
      ∧ (powerLawCall pois unif powf logf m alpha emission).2.2.1.count true
          = (powerLawCall pois unif powf logf m alpha emission).1
      ∧ (powerLawCall pois unif powf logf m alpha emission).2.2.2.length
          = (powerLawCall pois unif powf logf m alpha emission).2.1.sum)
    ∧ (∀ (pois : ℕ → ℚ → ℕ) (normal : ℚ → ℕ → ℕ → ℚ) (m : LineConfig)
        (F sigmaField : List ℚ),
      (lineCall pois normal m F sigmaField).2.1.length
          = (lineCall pois normal m F sigmaField).1
      ∧ (lineCall pois normal m F sigmaField).2.2.1.count true
          = (lineCall pois normal m F sigmaField).1
      ∧ (lineCall pois normal m F sigmaField).2.2.2.length
          = (lineCall pois normal m F sigmaField).2.1.sum)
    ∧ (∀ (pois : ℕ → ℚ → ℕ) (unif : ℕ → ℕ → ℚ) (choice : ℕ → ℕ → ℕ)
        (table : SpecTable) (cfg : ThermalConfig) (chunk : ThermalChunk)
        (nc : ℕ) (cnts sel : List ℕ) (es : List ℚ),
      thermalCall pois unif choice table cfg chunk = some (nc, cnts, sel, es) →
      cnts.length = nc ∧ sel.length = nc ∧ es.length = cnts.sum) := by
  refine ⟨?_, ?_, ?_⟩
  · intro pois unif powf logf m alpha emission
    refine ⟨?_, rfl, ?_⟩
    · exact (count_true_filter (mapIdxQ pois 0 (powerLawNorms powf logf m alpha emission))).symm
    · exact (plEnergyLoop_length powf unif m alpha (powerLawNormFac powf logf m alpha)
        (mapIdxQ pois 0 (powerLawNorms powf logf m alpha emission)) 0).trans
        (sum_filter_posN (mapIdxQ pois 0 (powerLawNorms powf logf m alpha emission))).symm
  · intro pois normal m F sigmaField
    refine ⟨?_, rfl, ?_⟩
    · exact (count_true_filter (mapIdxQ
        (fun i f => pois i (f * m.spectral_norm * m.scale_factor)) 0 F)).symm
    · cases hs : m.sigma <;>
        simp [lineCall, hs, sum_filter_posN, lineFieldEnergies_length]
  · intro pois unif choice table cfg chunk nc cnts sel es h
    simp only [thermalCall] at h
    split at h
    · simp at h
    · split at h
      · simp at h
      · simp only [Option.some.injEq, Prod.mk.injEq] at h
        obtain ⟨h1, h2, h3, h4⟩ := h
        subst h1
        subst h2
        subst h3
        subst h4
        refine ⟨by simp, by simp, ?_⟩
        rw [sum_filter_pos, length_flatQ, sum_map_flatQ]
        congr 1
        apply List.map_congr_left
        intro g hg
        exact groupEnergies_length pois unif choice table cfg chunk g

/-- Witness for C10 at a concrete one-cell thermal chunk whose call
returns one active cell with one photon. -/
theorem call_tuple_consistent_witness :
    thermalCall (fun _ _ => 1) (fun _ _ => 0) (fun _ _ => 0) ttable tcfg tchunk
        = some (1, [1], [0], [0])
    ∧ (([1] : List ℕ).length = 1 ∧ ([0] : List ℕ).length = 1
       ∧ ([0] : List ℚ).length = ([1] : List ℕ).sum) :=
  ⟨by norm_num [thermalCall, windowIdxs, sortIdxBy, sortBy, insertBy, sortQ, groupRuns,
     binPairs, binIndexAt, kTmidAt, thermalLam, maskedEMAt, densCut, metalZAt, elemZAt,
     groupEnergies, binLoop, cdfComposite, addLists, scaleList, lastD, cumsum0, cumsum,
     cumsumFrom, interp1, interpGo, flatQ, mapIdxQ, tcfg, ttable, tchunk, List.filter],
   call_tuple_consistent.2.2 (fun _ _ => 1) (fun _ _ => 0) (fun _ _ => 0) ttable tcfg tchunk
     1 [1] [0] [0]
     (by norm_num [thermalCall, windowIdxs, sortIdxBy, sortBy, insertBy, sortQ, groupRuns,
       binPairs, binIndexAt, kTmidAt, thermalLam, maskedEMAt, densCut, metalZAt, elemZAt,
       groupEnergies, binLoop, cdfComposite, addLists, scaleList, lastD, cumsum0, cumsum,
       cumsumFrom, interp1, interpGo, flatQ, mapIdxQ, tcfg, ttable, tchunk, List.filter])⟩

end Pyxsim
